import Mathlib

/-!
Verification of the meta-themes batch pipeline (reference implementation in
the repository's main CLI script). JavaScript strings are modelled as Lean
strings (lists of characters); JS truthiness of a string is nonemptiness;
a possibly-undefined value is an `Option`. Remote services (the record
store's paginated query endpoint and the completion endpoint) are modelled
as explicit function parameters, and the filesystem artifacts as explicit
values threaded through the functions that read or write them.
-/

/-- Whitespace as JS `trim` sees it: ASCII whitespace plus vertical tab,
form feed, no-break space and the zero-width no-break space (BOM). -/
def jsIsWhitespace (c : Char) : Bool :=
  c.isWhitespace || c = '\u000B' || c = '\u000C' || c = '\u00A0' || c = '\uFEFF'

/-- Remove leading and trailing whitespace from a character list. -/
def trimChars (l : List Char) : List Char :=
  ((l.dropWhile jsIsWhitespace).reverse.dropWhile jsIsWhitespace).reverse

/-- JS `String.prototype.trim`. -/
def jsTrim (s : String) : String :=
  String.mk (trimChars s.data)

/-- JS `value.replace` of a leading byte-order mark with the empty string:
strip one leading BOM character. -/
def stripBOM (s : String) : String :=
  match s.data with
  | c :: rest => if c = '\uFEFF' then String.mk rest else s
  | [] => s

/-- JS `Array.prototype.join(sep)`. -/
def jsJoin (sep : String) : List String → String
  | [] => ""
  | [p] => p
  | p :: q :: rest => p ++ sep ++ jsJoin sep (q :: rest)

/-- Source `chunkArray(array, chunkSize)`: consecutive slices of
`chunkSize` elements. The source loop advances its index by `chunkSize`
each iteration, so it only terminates for a positive chunk size; the
second equation is never reached on the source's call sites. -/
def chunkArray {α : Type} : List α → Nat → List (List α)
  | [], _ => []
  | _ :: _, 0 => []
  | a :: rest, n + 1 =>
      (a :: rest).take (n + 1) :: chunkArray ((a :: rest).drop (n + 1)) (n + 1)
termination_by l _ => l.length
decreasing_by simp; omega

/-- Source `CHUNK_SIZE` constant of `querySalesforceRecords`. -/
def CHUNK_SIZE : Nat := 450

/-- The sequence of filter-value chunks `querySalesforceRecords` issues one
chunk query for: a single query when the values fit under `CHUNK_SIZE`,
otherwise the `chunkArray` split. -/
def queryChunks (filterValues : List String) : List (List String) :=
  if filterValues.length ≤ CHUNK_SIZE then [filterValues]
  else chunkArray filterValues CHUNK_SIZE

/-- Source `querySalesforceRecords`, abstracted over the per-chunk fetch
(`querySalesforceRecordsChunk` applied to a store): below the chunk-size
ceiling it issues the single query directly, otherwise it fetches every
chunk in order and concatenates the results. -/
def querySalesforceRecords {α : Type} (chunkFetch : List String → List α)
    (filterValues : List String) : List α :=
  if filterValues.length ≤ CHUNK_SIZE then chunkFetch filterValues
  else ((chunkArray filterValues CHUNK_SIZE).map chunkFetch).flatten

/-- One page response of the record store: the page's records and the
optional continuation token (`nextRecordsUrl`). -/
structure PageResponse (α : Type) where
  records : List α
  nextRecordsUrl : Option String

/-- Result of fetching one chunk: accumulated records, the number of page
requests made (`pageCount`), and whether the safety-valve warning fired. -/
structure ChunkFetchResult (α : Type) where
  allRecords : List α
  pageCount : Nat
  warned : Bool
deriving DecidableEq

/-- The do-while pagination loop of `querySalesforceRecordsChunk`. The
store is modelled as a map from request number (1-based; request 1 is the
initial LIMIT-200 query, request i+1 follows the token of response i) to
the page response. `pagesDone` counts completed iterations, so the loop
body's `pageCount` is `pagesDone + 1`; the source checks
`pageCount > 100` after fetching the page and breaks with a warning,
otherwise it continues while a continuation token is present. -/
def chunkPaginate {α : Type} (store : Nat → PageResponse α) (pagesDone : Nat)
    (acc : List α) : ChunkFetchResult α :=
  if 100 < pagesDone + 1 then
    ⟨acc ++ (store (pagesDone + 1)).records, pagesDone + 1, true⟩
  else
    match (store (pagesDone + 1)).nextRecordsUrl with
    | some _ => chunkPaginate store (pagesDone + 1) (acc ++ (store (pagesDone + 1)).records)
    | none => ⟨acc ++ (store (pagesDone + 1)).records, pagesDone + 1, false⟩
termination_by 101 - pagesDone
decreasing_by omega

/-- Source `querySalesforceRecordsChunk` for one chunk, against a store
behaviour: run the pagination loop from zero completed pages. -/
def querySalesforceRecordsChunk {α : Type} (store : Nat → PageResponse α) :
    ChunkFetchResult α :=
  chunkPaginate store 0 []

/-- A Salesforce record: its Id and its attributes, a partial map from
field name to string value (`none` models an absent field). -/
structure SRecord where
  id : String
  attrs : String → Option String

/-- One entry of the `getFieldMetadata` result map. -/
structure FieldMeta where
  label : String
  name : String

/-- JS `fieldMetadata[fieldName]?.label || fieldName`: the metadata label
when present and non-empty, the raw field name otherwise. -/
def labelFor (fieldMetadata : String → Option FieldMeta) (fieldName : String) : String :=
  match fieldMetadata fieldName with
  | some meta => if meta.label ≠ "" then meta.label else fieldName
  | none => fieldName

/-- The guard `record[fieldName] && record[fieldName].trim()` of
`combineFieldsWithLabels`: the field is present, truthy, and non-empty
after trimming. -/
def fieldHasText (record : SRecord) (fieldName : String) : Bool :=
  match record.attrs fieldName with
  | some v => v != "" && jsTrim v != ""
  | none => false

/-- Source `combineFieldsWithLabels`: for each requested field, in order,
whose value is present and non-empty after trimming, render
`label ++ ": " ++ trimmed value`; join the parts with a blank line. -/
def combineFieldsWithLabels (record : SRecord) (fields : List String)
    (fieldMetadata : String → Option FieldMeta) : String :=
  let parts := fields.filterMap fun fieldName =>
    match record.attrs fieldName with
    | some v =>
        if v ≠ "" ∧ jsTrim v ≠ "" then
          some (labelFor fieldMetadata fieldName ++ ": " ++ jsTrim v)
        else none
    | none => none
  jsJoin "\n\n" parts

/-- One row of the output artifact, as built in the main loop:
`recordId`, the record's value of the filter field, the combined original
text, and the response (or error sentinel). -/
structure OutcomeRow where
  recordId : String
  filterValue : String
  originalText : String
  response : String
deriving DecidableEq

/-- One iteration of the main record loop. The completion call
(`sendToLMStudio` / `sendToCopilot`) is modelled as a function from the
combined text to either a response or an error message. When the combined
text is empty after trimming, the record is skipped silently: no service
call is made and no outcome is produced (the result does not depend on
`sendToService`). On a service error the outcome's response is the literal
string `Error: ` followed by the error message, and the loop continues. -/
def processRecord (sendToService : String → Except String String)
    (filterField : String) (fields : List String)
    (fieldMetadata : String → Option FieldMeta) (record : SRecord) : Option OutcomeRow :=
  let combinedText := combineFieldsWithLabels record fields fieldMetadata
  if jsTrim combinedText ≠ "" then
    some (match sendToService combinedText with
      | Except.ok response =>
          ⟨record.id, (record.attrs filterField).getD "", combinedText, response⟩
      | Except.error msg =>
          ⟨record.id, (record.attrs filterField).getD "", combinedText, "Error: " ++ msg⟩)
  else none

/-- The main record loop: the outcome rows produced (and appended, one by
one, in this order) for a list of fetched records. -/
def processRecords (sendToService : String → Except String String)
    (filterField : String) (fields : List String)
    (fieldMetadata : String → Option FieldMeta) (records : List SRecord) : List OutcomeRow :=
  records.filterMap (processRecord sendToService filterField fields fieldMetadata)

/-- What the run does after loading the Resume Set: exit successfully
without querying, or proceed to query the given filter values. -/
inductive MainAction
  | exitZero : MainAction
  | query (filterValues : List String) : MainAction
deriving DecidableEq

/-- The resume-filtering step of `main`: only when the Resume Set is
non-empty are the already-processed values filtered out, and only then
does an empty remainder exit the process with status 0 before any
Salesforce call. -/
def resumeFilterStep (allFilterValues : List String) (processedIds : Finset String) :
    MainAction :=
  if 0 < processedIds.card then
    let filterValues := allFilterValues.filter fun value => value ∉ processedIds
    if filterValues.length = 0 then MainAction.exitZero
    else MainAction.query filterValues
  else MainAction.query allFilterValues

/-- The fixed header row `appendResultsToCSV` configures: record id, the
dynamic filter field name, original text, response. -/
def outputHeader (filterField : String) : List String :=
  ["Salesforce Record ID", filterField, "Original Text", "LM Studio Response"]

/-- The cells of one outcome row, in the header's column order. -/
def outcomeRowCells (row : OutcomeRow) : List String :=
  [row.recordId, row.filterValue, row.originalText, row.response]

/-- The output artifact: `none` when the file does not exist, otherwise
its rows (each a list of cells). -/
def CsvFile : Type := Option (List (List String))

/-- Source `appendResultsToCSV(results, filename, filterField,
skipHeaderCheck)`, as a transformation of the artifact. With no results it
returns without touching the file. Otherwise the csv-writer is created
with `append: fileExists`, which is what decides header emission: a
missing file is created with the header row followed by the result rows,
an existing file gets the rows appended with no header. (The source also
computes a `writeHeader` flag from `skipHeaderCheck`, but never uses it,
so the flag parameter has no effect on the artifact.) -/
def appendResultsToCSV (results : List OutcomeRow) (file : CsvFile)
    (filterField : String) ( skipHeaderCheck : Bool) : CsvFile :=
  if results.length = 0 then file
  else
    match file with
    | some lines => some (lines ++ results.map outcomeRowCells)
    | none => some (outputHeader filterField :: results.map outcomeRowCells)

/-- One event of a csv-parser read stream, in emission order: the headers
event, one data event per parsed row (an ordered association list of
column name to cell value), or a stream error, which ends the stream. -/
inductive CsvEvent
  | headers (names : List String)
  | data (row : List (String × String))
  | err (message : String)

/-- JS `row[key]`: the value of the named column, `none` when absent. -/
def lookupColumn (row : List (String × String)) (key : String) : Option String :=
  (row.find? fun cell => cell.1 = key).map fun cell => cell.2

/-- JS `a || b` on possibly-undefined strings: `b` when `a` is undefined
or empty. -/
def jsOr (a b : Option String) : Option String :=
  match a with
  | some v => if v ≠ "" then some v else b
  | none => b

/-- The resume-key lookup of `getProcessedRecordIds`: the column
`Salesforce Record ID`, else `recordId`, else the row's first column. -/
def recordIdOf (row : List (String × String)) : Option String :=
  jsOr (lookupColumn row "Salesforce Record ID")
    (jsOr (lookupColumn row "recordId") (row.head?.map Prod.snd))

/-- Result of loading the Resume Set: the set of ids, and whether the
non-fatal could-not-read warning was printed. The function resolves in
every case (its type has no error outcome), matching the source promise
that never rejects. -/
structure ResumeResult where
  processedIds : Finset String
  warned : Bool
deriving DecidableEq

/-- The event loop of `getProcessedRecordIds`: each data row with a truthy,
non-blank resume key adds the trimmed key to the set; a stream error logs
the warning and resolves immediately with the set accumulated so far; the
end of the stream resolves with the full set. A headers event has no
handler in the source and is ignored. -/
def resumeScan (processedIds : Finset String) : List CsvEvent → ResumeResult
  | [] => ⟨processedIds, false⟩
  | CsvEvent.headers _ :: rest => resumeScan processedIds rest
  | CsvEvent.data row :: rest =>
      match recordIdOf row with
      | some recordId =>
          if recordId ≠ "" ∧ jsTrim recordId ≠ "" then
            resumeScan (insert (jsTrim recordId) processedIds) rest
          else resumeScan processedIds rest
      | none => resumeScan processedIds rest
  | CsvEvent.err _ :: _ => ⟨processedIds, true⟩

/-- Source `getProcessedRecordIds(outputFilePath)`: an empty set when the
output artifact does not exist, otherwise the scan of its read stream. The
artifact is modelled by the events its read stream emits (`none` when the
file is missing). -/
def getProcessedRecordIds (file : Option (List CsvEvent)) : ResumeResult :=
  match file with
  | none => ⟨∅, false⟩
  | some events => resumeScan ∅ events

/-- Result of `readCsvFile`: the filter field (null until a headers event
arrives) and the filter values in row order. -/
structure ReadCsvResult where
  filterField : Option String
  filterValues : List String
deriving DecidableEq

/-- The value `readCsvFile` keeps from one data row: the first column's
value when it is truthy and non-blank after trimming, BOM-stripped and
trimmed; otherwise the row is skipped silently. -/
def rowFirstValue (row : List (String × String)) : Option String :=
  match row.head? with
  | some cell =>
      if cell.2 ≠ "" ∧ jsTrim cell.2 ≠ "" then some (jsTrim (stripBOM cell.2))
      else none
  | none => none

/-- The event loop of `readCsvFile`: a headers event sets the filter field
to the first header name, BOM-stripped and trimmed; each data row
contributes through `rowFirstValue`; a stream error rejects the promise;
the end of the stream resolves. -/
def readCsvScan (filterField : Option String) (results : List String) :
    List CsvEvent → Except String ReadCsvResult
  | [] => Except.ok ⟨filterField, results⟩
  | CsvEvent.headers names :: rest =>
      readCsvScan (some (jsTrim (stripBOM (names.headD "")))) results rest
  | CsvEvent.data row :: rest =>
      match rowFirstValue row with
      | some value => readCsvScan filterField (results ++ [value]) rest
      | none => readCsvScan filterField results rest
  | CsvEvent.err message :: _ => Except.error message

/-- Source `readCsvFile(csvFilePath)`: scan the input artifact's read
stream starting with a null filter field and no values. -/
def readCsvFile (events : List CsvEvent) : Except String ReadCsvResult :=
  readCsvScan none [] events

/-- A store behaviour that returns a continuation token on every page. -/
def constTokenStore : Nat → PageResponse Nat :=
  fun _ => ⟨[], some "next"⟩

/-- A store behaviour with a token on page 1 only: two pages in total. -/
def twoPageStore : Nat → PageResponse Nat :=
  fun i => if i = 1 then ⟨[10], some "next"⟩ else ⟨[20], none⟩

/-- A record whose only populated field is Q. -/
def recQ (id value : String) : SRecord :=
  ⟨id, fun f => if f = "Q" then some value else none⟩

/-- A completion stub that fails on the record-two text and echoes
otherwise. -/
def svcEcho : String → Except String String :=
  fun t => if t = "Q: two" then Except.error "boom" else Except.ok ("ECHO: " ++ t)

/-- An empty metadata map (every label falls back to the field name). -/
def metaNone : String → Option FieldMeta :=
  fun _ => none

/-- The id one data row contributes to the Resume Set in
`getProcessedRecordIds`: the trimmed resume key, when the key is truthy
and non-blank after trimming. -/
def rowResumeValue (row : List (String × String)) : Option String :=
  match recordIdOf row with
  | some recordId =>
      if recordId ≠ "" ∧ jsTrim recordId ≠ "" then some (jsTrim recordId) else none
  | none => none

theorem trimChars_eq_nil_iff (l : List Char) :
    trimChars l = [] ↔ ∀ c ∈ l, jsIsWhitespace c := by
  unfold trimChars
  rw [List.reverse_eq_nil_iff, List.dropWhile_eq_nil_iff]
  constructor
  · intro h c hc
    have hsplit : c ∈ l.takeWhile jsIsWhitespace ++ l.dropWhile jsIsWhitespace := by
      rw [List.takeWhile_append_dropWhile]; exact hc
    rcases List.mem_append.mp hsplit with h1 | h1
    · exact List.mem_takeWhile_imp h1
    · exact h c (List.mem_reverse.mpr h1)
  · intro h c hc
    exact h c ((List.dropWhile_sublist jsIsWhitespace).mem (List.mem_reverse.mp hc))

theorem jsTrim_eq_empty_iff (s : String) :
    jsTrim s = "" ↔ ∀ c ∈ s.data, jsIsWhitespace c := by
  rw [← trimChars_eq_nil_iff]
  constructor
  · intro h
    have := congrArg String.data h
    simpa [jsTrim] using this
  · intro h
    simp [jsTrim, h]

theorem jsTrim_ne_empty (s : String) (c : Char) (hc : c ∈ s.data)
    (hw : jsIsWhitespace c = false) : jsTrim s ≠ "" := by
  intro h
  have := (jsTrim_eq_empty_iff s).mp h c hc
  rw [hw] at this
  exact Bool.false_ne_true this

theorem jsJoin_mem_char (sep : String) (parts : List String) (p : String)
    (hp : p ∈ parts) (c : Char) (hc : c ∈ p.data) : c ∈ (jsJoin sep parts).data := by
  induction parts with
  | nil => cases hp
  | cons p0 rest ih =>
    cases rest with
    | nil =>
      rcases List.mem_singleton.mp hp with h
      subst h
      simpa [jsJoin] using hc
    | cons q rest2 =>
      rcases List.mem_cons.mp hp with h | h
      · subst h
        simp [jsJoin, String.data_append]
        tauto
      · have := ih h
        simp [jsJoin, String.data_append] at this ⊢
        tauto

theorem chunkArray_flatten {α : Type} (l : List α) (n : Nat) (h : 0 < n) :
    (chunkArray l n).flatten = l := by
  induction l, n using chunkArray.induct with
  | case1 m => simp [chunkArray]
  | case2 a rest => omega
  | case3 a rest m ih =>
    simp only [chunkArray, List.flatten_cons]
    rw [ih h, List.take_append_drop]

theorem chunkArray_mem_length_le {α : Type} (l : List α) (n : Nat) (c : List α)
    (hc : c ∈ chunkArray l n) : c.length ≤ n := by
  induction l, n using chunkArray.induct with
  | case1 m => simp [chunkArray] at hc
  | case2 a rest => simp [chunkArray] at hc
  | case3 a rest m ih =>
    simp only [chunkArray, List.mem_cons] at hc
    rcases hc with h | h
    · subst h
      simp [List.length_take]
    · exact ih h

theorem chunkArray_eq_nil_iff {α : Type} (l : List α) (n : Nat) (h : 0 < n) :
    chunkArray l n = [] ↔ l = [] := by
  cases l with
  | nil => simp [chunkArray]
  | cons a rest =>
    cases n with
    | zero => omega
    | succ m => simp [chunkArray]

theorem ceilDiv_rec (k m : Nat) (hk : 0 < k) :
    (k - (m + 1) + (m + 1) - 1) / (m + 1) + 1 = (k + (m + 1) - 1) / (m + 1) := by
  have hr : k + (m + 1) - 1 = (k - 1) + (m + 1) := by omega
  rw [hr, Nat.add_div_right _ (by omega)]
  rcases le_or_lt k (m + 1) with hle | hlt
  · have h0 : k - (m + 1) = 0 := by omega
    rw [h0, Nat.div_eq_of_lt (by omega), Nat.div_eq_of_lt (by omega)]
  · have h1 : k - (m + 1) + (m + 1) - 1 = k - 1 := by omega
    rw [h1]

theorem chunkArray_length {α : Type} (l : List α) (n : Nat) (h : 0 < n) :
    (chunkArray l n).length = (l.length + n - 1) / n := by
  induction l, n using chunkArray.induct with
  | case1 m =>
    simp only [chunkArray, List.length_nil, Nat.zero_add]
    rw [Nat.div_eq_of_lt (by omega)]
  | case2 a rest => omega
  | case3 a rest m ih =>
    simp only [chunkArray, List.length_cons, Nat.succ_eq_add_one]
    rw [ih h, List.length_drop, List.length_cons]
    exact ceilDiv_rec (rest.length + 1) m (by omega)

theorem chunkArray_dropLast_length {α : Type} (l : List α) (n : Nat) (h : 0 < n)
    (c : List α) (hc : c ∈ (chunkArray l n).dropLast) : c.length = n := by
  induction l, n using chunkArray.induct with
  | case1 m => simp [chunkArray] at hc
  | case2 a rest => omega
  | case3 a rest m ih =>
    simp only [chunkArray] at hc
    by_cases htail : chunkArray ((a :: rest).drop (m + 1)) (m + 1) = []
    · rw [htail] at hc
      simp at hc
    · rw [List.dropLast_cons_of_ne_nil htail, List.mem_cons] at hc
      rcases hc with hhead | htl
      · subst hhead
        have hdropne : (a :: rest).drop (m + 1) ≠ [] := by
          intro hnil
          exact htail (by rw [hnil]; simp [chunkArray])
        have hlen : m + 1 < (a :: rest).length := by
          by_contra hge
          exact hdropne (List.drop_eq_nil_of_le (by omega))
        have : (a :: rest).length = rest.length + 1 := rfl
        simp [List.length_take]
        omega
      · exact ih h htl

theorem queryChunks_spec (filterValues : List String) (chunkFetch : List String → List SRecord) :
    querySalesforceRecords chunkFetch filterValues =
      ((queryChunks filterValues).map chunkFetch).flatten := by
  unfold querySalesforceRecords queryChunks
  by_cases hle : filterValues.length ≤ CHUNK_SIZE
  · simp [hle]
  · simp [hle]

theorem chunkPaginate_run {α : Type} (store : Nat → PageResponse α) (p : Nat)
    (hp : p + 1 ≤ 100)
    (htok : ∀ i, 1 ≤ i → i ≤ p → (store i).nextRecordsUrl.isSome = true)
    (hend : (store (p + 1)).nextRecordsUrl = none) :
    ∀ n d acc, p - d = n → d ≤ p →
      chunkPaginate store d acc =
        ⟨acc ++ (((List.range' (d + 1) (p + 1 - d)).map fun i => (store i).records).flatten),
          p + 1, false⟩ := by
  intro n
  induction n with
  | zero =>
    intro d acc hn hdp
    have hdp2 : d = p := by omega
    subst hdp2
    rw [chunkPaginate, if_neg (by omega), hend]
    have h1 : d + 1 - d = 1 := by omega
    simp [h1, List.range'_one]
  | succ n ihn =>
    intro d acc hn hdp
    rw [chunkPaginate, if_neg (by omega)]
    obtain ⟨u, hu⟩ := Option.isSome_iff_exists.mp (htok (d + 1) (by omega) (by omega))
    rw [hu]
    rw [ihn (d + 1) (acc ++ (store (d + 1)).records) (by omega) (by omega)]
    have h2 : p + 1 - d = (n + 1) + 1 := by omega
    have h3 : p + 1 - (d + 1) = n + 1 := by omega
    simp [h2, h3, List.range'_succ, List.append_assoc]

theorem chunkPaginate_le {α : Type} (store : Nat → PageResponse α) :
    ∀ n d acc, 101 - d ≤ n → d ≤ 100 →
      (chunkPaginate store d acc).pageCount ≤ 101 ∧
        (100 < (chunkPaginate store d acc).pageCount →
          (chunkPaginate store d acc).warned = true) := by
  intro n
  induction n with
  | zero => intro d acc h1 h2; omega
  | succ n ihn =>
    intro d acc h1 h2
    rw [chunkPaginate]
    by_cases h100 : 100 < d + 1
    · rw [if_pos h100]
      exact ⟨by show d + 1 ≤ 101; omega, fun _ => rfl⟩
    · rw [if_neg h100]
      cases hurl : (store (d + 1)).nextRecordsUrl with
      | some u => exact ihn (d + 1) (acc ++ (store (d + 1)).records) (by omega) (by omega)
      | none => exact ⟨by show d + 1 ≤ 101; omega, fun hgt => absurd hgt h100⟩

theorem chunkPaginate_allTok {α : Type} (store : Nat → PageResponse α)
    (htok : ∀ i, (store i).nextRecordsUrl.isSome = true) :
    ∀ n d acc, 101 - d ≤ n → d ≤ 100 →
      (chunkPaginate store d acc).pageCount = 101 ∧
        (chunkPaginate store d acc).warned = true := by
  intro n
  induction n with
  | zero => intro d acc h1 h2; omega
  | succ n ihn =>
    intro d acc h1 h2
    rw [chunkPaginate]
    by_cases h100 : 100 < d + 1
    · rw [if_pos h100]
      exact ⟨by show d + 1 = 101; omega, rfl⟩
    · rw [if_neg h100]
      obtain ⟨u, hu⟩ := Option.isSome_iff_exists.mp (htok (d + 1))
      rw [hu]
      exact ihn (d + 1) (acc ++ (store (d + 1)).records) (by omega) (by omega)

theorem combineFieldsWithLabels_eq_empty (record : SRecord) (fields : List String)
    (fieldMetadata : String → Option FieldMeta)
    (h : ∀ f ∈ fields, fieldHasText record f = false) :
    combineFieldsWithLabels record fields fieldMetadata = "" := by
  unfold combineFieldsWithLabels
  have hparts : (fields.filterMap fun fieldName =>
      match record.attrs fieldName with
      | some v =>
          if v ≠ "" ∧ jsTrim v ≠ "" then
            some (labelFor fieldMetadata fieldName ++ ": " ++ jsTrim v)
          else none
      | none => none) = [] := by
    rw [List.filterMap_eq_nil_iff]
    intro f hf
    have hft := h f hf
    unfold fieldHasText at hft
    cases hattr : record.attrs f with
    | none => simp [hattr]
    | some v =>
      rw [hattr] at hft
      simp only [Bool.and_eq_false_iff, bne_eq_false_iff_eq] at hft
      simp only [hattr]
      rw [if_neg]
      rcases hft with h1 | h1
      · exact fun hc => hc.1 h1
      · exact fun hc => hc.2 h1
  rw [hparts]
  rfl

theorem combineFieldsWithLabels_trim_ne (record : SRecord) (fields : List String)
    (fieldMetadata : String → Option FieldMeta) (f : String) (hf : f ∈ fields)
    (hft : fieldHasText record f = true) :
    jsTrim (combineFieldsWithLabels record fields fieldMetadata) ≠ "" := by
  unfold fieldHasText at hft
  cases hattr : record.attrs f with
  | none => rw [hattr] at hft; cases hft
  | some v =>
    rw [hattr] at hft
    simp only [Bool.and_eq_true, bne_iff_ne] at hft
    have hpart : (labelFor fieldMetadata f ++ ": " ++ jsTrim v) ∈
        (fields.filterMap fun fieldName =>
          match record.attrs fieldName with
          | some w =>
              if w ≠ "" ∧ jsTrim w ≠ "" then
                some (labelFor fieldMetadata fieldName ++ ": " ++ jsTrim w)
              else none
          | none => none) := by
      apply List.mem_filterMap.mpr
      exact ⟨f, hf, by simp [hattr, hft.1, hft.2]⟩
    have hcolon : (':' : Char) ∈ (labelFor fieldMetadata f ++ ": " ++ jsTrim v).data := by
      simp [String.data_append]
    have hmem := jsJoin_mem_char "\n\n" _ _ hpart ':' hcolon
    exact jsTrim_ne_empty _ ':' hmem (by decide)

theorem jsTrim_empty : jsTrim "" = "" := rfl

theorem appendResultsToCSV_fold (filterField : String) :
    ∀ (calls : List (List OutcomeRow × Bool)) (lines : List (List String)),
      (∀ c ∈ calls, c.1 ≠ []) →
      calls.foldl (fun file c => appendResultsToCSV c.1 file filterField c.2) (some lines) =
        some (lines ++ (calls.map fun c => c.1.map outcomeRowCells).flatten) := by
  intro calls
  induction calls with
  | nil => intro lines h; simp
  | cons c rest ih =>
    intro lines h
    have hc : c.1 ≠ [] := h c (List.mem_cons_self c rest)
    have hstep : appendResultsToCSV c.1 (some lines) filterField c.2 =
        some (lines ++ c.1.map outcomeRowCells) := by
      unfold appendResultsToCSV
      rw [if_neg (by simpa using hc)]
    rw [List.foldl_cons, hstep, ih _ (fun x hx => h x (List.mem_cons_of_mem c hx))]
    simp [List.append_assoc]

theorem readCsvScan_data (ff : Option String) :
    ∀ (rows : List (List (String × String))) (acc : List String),
      readCsvScan ff acc (rows.map CsvEvent.data) =
        Except.ok ⟨ff, acc ++ rows.filterMap rowFirstValue⟩ := by
  intro rows
  induction rows with
  | nil => intro acc; simp [readCsvScan]
  | cons r rest ih =>
    intro acc
    simp only [List.map_cons, readCsvScan]
    cases hr : rowFirstValue r with
    | some v => simp [hr, ih, List.filterMap_cons]
    | none => simp [hr, ih, List.filterMap_cons]

theorem resumeScan_data_err :
    ∀ (rows : List (List (String × String))) (s : Finset String) (msg : String)
      (rest : List CsvEvent),
      resumeScan s (rows.map CsvEvent.data ++ CsvEvent.err msg :: rest) =
        ⟨(rows.filterMap rowResumeValue).foldl (fun t v => insert v t) s, true⟩ := by
  intro rows
  induction rows with
  | nil => intro s msg rest; rfl
  | cons r rrest ih =>
    intro s msg rest
    simp only [List.map_cons, List.cons_append, resumeScan]
    cases hrid : recordIdOf r with
    | none => simp [ih, List.filterMap_cons, rowResumeValue, hrid]
    | some recordId =>
      by_cases hcond : recordId ≠ "" ∧ jsTrim recordId ≠ ""
      · simp [hcond, ih, List.filterMap_cons, rowResumeValue, hrid]
      · simp [hcond, ih, List.filterMap_cons, rowResumeValue, hrid,
          if_neg hcond]

/-- C1: for every list of k filter values with k at least 1, the chunked
query planner issues exactly ceil(k / 450) chunk queries — the length of
`queryChunks`, the chunk sequence that `querySalesforceRecords` fetches,
one query per chunk (lemma `queryChunks_spec`) — and every chunk passed to
a query holds at most `CHUNK_SIZE` = 450 values. The ceiling
ceil(k / 450) is written (k + CHUNK_SIZE - 1) / CHUNK_SIZE. -/
theorem C1_chunk_size_invariant (filterValues : List String)
    (hk : 1 ≤ filterValues.length) :
    (queryChunks filterValues).length =
        (filterValues.length + CHUNK_SIZE - 1) / CHUNK_SIZE ∧
      ∀ c ∈ queryChunks filterValues, c.length ≤ CHUNK_SIZE := by
  have hcs : CHUNK_SIZE = 450 := rfl
  unfold queryChunks
  by_cases hle : filterValues.length ≤ CHUNK_SIZE
  · rw [if_pos hle]
    constructor
    · show 1 = _
      have hr : filterValues.length + CHUNK_SIZE - 1 =
          (filterValues.length - 1) + CHUNK_SIZE := by omega
      rw [hr, Nat.add_div_right _ (by omega), Nat.div_eq_of_lt (by omega)]
    · intro c hc
      rcases List.mem_singleton.mp hc with h
      subst h
      exact hle
  · rw [if_neg hle]
    constructor
    · exact chunkArray_length filterValues CHUNK_SIZE (by omega)
    · intro c hc
      exact chunkArray_mem_length_le _ _ _ hc

/-- C1 witness: a single value yields one chunk of at most 450 values. -/
theorem C1_chunk_size_invariant_w :
    (queryChunks ["a"]).length =
        ((["a"] : List String).length + CHUNK_SIZE - 1) / CHUNK_SIZE ∧
      ∀ c ∈ queryChunks ["a"], c.length ≤ CHUNK_SIZE :=
  C1_chunk_size_invariant ["a"] (by decide)

/-- C10: for every array and every positive chunk size, concatenating the
chunks produced by `chunkArray` restores the original array (nothing
lost, duplicated or reordered), and every chunk except possibly the last
has exactly `chunkSize` elements. -/
theorem C10_chunkArray_concat {α : Type} (array : List α) (chunkSize : Nat)
    (h : 0 < chunkSize) :
    (chunkArray array chunkSize).flatten = array ∧
      ∀ c ∈ (chunkArray array chunkSize).dropLast, c.length = chunkSize :=
  ⟨chunkArray_flatten array chunkSize h,
    fun c hc => chunkArray_dropLast_length array chunkSize h c hc⟩

/-- C10 witness: chunking five elements by two. -/
theorem C10_chunkArray_concat_w :
    (chunkArray [1, 2, 3, 4, 5] 2).flatten = [1, 2, 3, 4, 5] ∧
      ∀ c ∈ (chunkArray [1, 2, 3, 4, 5] 2).dropLast, c.length = 2 :=
  C10_chunkArray_concat [1, 2, 3, 4, 5] 2 (by decide)

/-- C2: against a store behaviour that returns a continuation token on the
first p page responses of a chunk and none on the (p+1)-th, with p+1 at
most the 100-page ceiling, `querySalesforceRecordsChunk` makes exactly
p+1 page requests and returns the concatenation of all pages' record
lists in request order. -/
theorem C2_pagination_termination {α : Type} (store : Nat → PageResponse α)
    (p : Nat) (hp : p + 1 ≤ 100)
    (htok : ∀ i, 1 ≤ i → i ≤ p → (store i).nextRecordsUrl.isSome = true)
    (hend : (store (p + 1)).nextRecordsUrl = none) :
    (querySalesforceRecordsChunk store).pageCount = p + 1 ∧
      (querySalesforceRecordsChunk store).allRecords =
        ((List.range' 1 (p + 1)).map fun i => (store i).records).flatten := by
  have h := chunkPaginate_run store p hp htok hend p 0 [] (by omega) (by omega)
  unfold querySalesforceRecordsChunk
  rw [h]
  exact ⟨rfl, by simp⟩

/-- C2 witness: a two-page store behaviour (token on page 1 only) is
fetched in exactly two page requests, records concatenated in order. -/
theorem C2_pagination_termination_w :
    (querySalesforceRecordsChunk twoPageStore).pageCount = 1 + 1 ∧
      (querySalesforceRecordsChunk twoPageStore).allRecords =
        ((List.range' 1 (1 + 1)).map fun i => (twoPageStore i).records).flatten :=
  C2_pagination_termination twoPageStore 1 (by decide)
    (by
      intro i h1 h2
      have hi : i = 1 := by omega
      subst hi
      rfl)
    rfl

/-- C6 counterexample: against a store behaviour that always returns a
continuation token, `querySalesforceRecordsChunk` issues 101 page
requests — the safety check fires only after the 101st fetch — so the
claimed bound of at most 100 page requests is false. -/
theorem C6_counterexample :
    (querySalesforceRecordsChunk constTokenStore).pageCount = 101 ∧
      ¬ (querySalesforceRecordsChunk constTokenStore).pageCount ≤ 100 := by
  have h := chunkPaginate_allTok constTokenStore (fun i => rfl) 101 0 [] (by omega) (by omega)
  unfold querySalesforceRecordsChunk
  exact ⟨h.1, by rw [h.1]; omega⟩

/-- C6 amended: for every chunk and every store behaviour,
`querySalesforceRecordsChunk` issues at most 101 page requests, and
whenever pagination overruns the 100-page ceiling it sets the warning
flag and aborts instead of looping indefinitely (the function is total by
construction). -/
theorem C6_page_cap {α : Type} (store : Nat → PageResponse α) :
    (querySalesforceRecordsChunk store).pageCount ≤ 101 ∧
      (100 < (querySalesforceRecordsChunk store).pageCount →
        (querySalesforceRecordsChunk store).warned = true) := by
  unfold querySalesforceRecordsChunk
  exact chunkPaginate_le store 101 0 [] (by omega) (by omega)

/-- C6 witness: the always-token store behaviour stays within the 101-page
bound and its overrun trips the warning. -/
theorem C6_page_cap_w :
    (querySalesforceRecordsChunk constTokenStore).pageCount ≤ 101 ∧
      (querySalesforceRecordsChunk constTokenStore).warned = true :=
  ⟨(C6_page_cap constTokenStore).1,
    (C6_page_cap constTokenStore).2 (by
      unfold querySalesforceRecordsChunk
      rw [(chunkPaginate_allTok constTokenStore (fun i => rfl) 101 0 []
        (by omega) (by omega)).1]
      omega)⟩

/-- C3 counterexample: with an empty filter-value list and an empty Resume
Set, remaining is empty, yet the run does not exit before querying: it
proceeds to query the empty list (the resume branch, including its
exit-0 path, only runs when the Resume Set is non-empty). -/
theorem C3_counterexample :
    resumeFilterStep [] ∅ = MainAction.query [] ∧
      resumeFilterStep [] ∅ ≠ MainAction.exitZero ∧
      ([] : List String).filter (fun value => value ∉ (∅ : Finset String)) = [] :=
  ⟨rfl, by decide, rfl⟩

/-- C3 amended: the main loop queries exactly the subsequence
remaining = values not in the Resume Set, preserving original order
(remaining is a sublist of the input), and it terminates with exit
status 0 before any remote query exactly when the Resume Set is
non-empty and remaining is empty; with an empty Resume Set the run
always proceeds to query (all values, even when there are none). -/
theorem C3_resume_filtering (allFilterValues : List String)
    (processedIds : Finset String) :
    resumeFilterStep allFilterValues processedIds =
        (if 0 < processedIds.card ∧
            (allFilterValues.filter fun value => value ∉ processedIds) = []
          then MainAction.exitZero
          else MainAction.query
            (allFilterValues.filter fun value => value ∉ processedIds)) ∧
      (allFilterValues.filter fun value => value ∉ processedIds).Sublist
        allFilterValues := by
  constructor
  · unfold resumeFilterStep
    by_cases hcard : 0 < processedIds.card
    · rw [if_pos hcard]
      by_cases hfil : (allFilterValues.filter fun value => value ∉ processedIds) = []
      · rw [if_pos (by rw [hfil]; rfl), if_pos ⟨hcard, hfil⟩]
      · rw [if_neg (by intro hlen; exact hfil (List.length_eq_zero.mp hlen)),
          if_neg (by intro hc; exact hfil hc.2)]
    · rw [if_neg hcard, if_neg (by intro hc; exact hcard hc.1)]
      have : (allFilterValues.filter fun value => value ∉ processedIds) =
          allFilterValues := by
        apply List.filter_eq_self.mpr
        intro a _
        have hempty : processedIds = ∅ := Finset.card_eq_zero.mp (by omega)
        simp [hempty]
      rw [this]
  · exact List.filter_sublist allFilterValues

/-- C4: for every sequence of append calls (each with a non-empty result
batch and an arbitrary skip flag) against the same output path, starting
from a missing file — possibly spanning separate process invocations,
since the only state is the artifact itself — the resulting artifact is
exactly one header row followed by all outcome rows in append order;
moreover a single append to a missing file writes the header and the
rows, and a single append to an existing file appends only the rows. -/
theorem C4_header_once (filterField : String)
    (calls : List (List OutcomeRow × Bool)) (hne : calls ≠ [])
    (h : ∀ c ∈ calls, c.1 ≠ []) (results : List OutcomeRow)
    (lines : List (List String)) (flag : Bool) (hres : results ≠ []) :
    calls.foldl (fun file c => appendResultsToCSV c.1 file filterField c.2) none =
        some (outputHeader filterField ::
          (calls.map fun c => c.1.map outcomeRowCells).flatten) ∧
      appendResultsToCSV results none filterField flag =
        some (outputHeader filterField :: results.map outcomeRowCells) ∧
      appendResultsToCSV results (some lines) filterField flag =
        some (lines ++ results.map outcomeRowCells) := by
  have hsingle : ∀ (rs : List OutcomeRow), rs ≠ [] →
      appendResultsToCSV rs none filterField flag =
        some (outputHeader filterField :: rs.map outcomeRowCells) := by
    intro rs hrs
    unfold appendResultsToCSV
    rw [if_neg (by simpa using hrs)]
  refine ⟨?_, hsingle results hres, ?_⟩
  · cases calls with
    | nil => exact absurd rfl hne
    | cons c rest =>
      have hc : c.1 ≠ [] := h c (List.mem_cons_self c rest)
      have hstep : appendResultsToCSV c.1 none filterField c.2 =
          some (outputHeader filterField :: c.1.map outcomeRowCells) := by
        unfold appendResultsToCSV
        rw [if_neg (by simpa using hc)]
      rw [List.foldl_cons, hstep,
        appendResultsToCSV_fold filterField rest _
          (fun x hx => h x (List.mem_cons_of_mem c hx))]
      simp
  · unfold appendResultsToCSV
    rw [if_neg (by simpa using hres)]

/-- C4 witness: two single-row appends to an initially missing artifact
produce one header followed by the two rows; the single-call equations
hold at a concrete batch and a concrete existing file. -/
theorem C4_header_once_w :
    ([([OutcomeRow.mk "001" "A" "t1" "r1"], true),
        ([OutcomeRow.mk "002" "B" "t2" "r2"], true)].foldl
        (fun file c => appendResultsToCSV c.1 file "F" c.2) none =
      some (outputHeader "F" ::
        ([([OutcomeRow.mk "001" "A" "t1" "r1"], true),
            ([OutcomeRow.mk "002" "B" "t2" "r2"], true)].map
          fun c => c.1.map outcomeRowCells).flatten)) ∧
      appendResultsToCSV [OutcomeRow.mk "001" "A" "t1" "r1"] none "F" true =
        some (outputHeader "F" ::
          [OutcomeRow.mk "001" "A" "t1" "r1"].map outcomeRowCells) ∧
      appendResultsToCSV [OutcomeRow.mk "001" "A" "t1" "r1"] (some [["x"]]) "F" true =
        some ([["x"]] ++ [OutcomeRow.mk "001" "A" "t1" "r1"].map outcomeRowCells) :=
  C4_header_once "F"
    [([OutcomeRow.mk "001" "A" "t1" "r1"], true),
      ([OutcomeRow.mk "002" "B" "t2" "r2"], true)]
    (by decide) (by decide) [OutcomeRow.mk "001" "A" "t1" "r1"] [["x"]] true
    (by decide)

/-- C5: for every record whose combined text is non-empty after trimming,
if the completion call fails the main loop records an outcome whose
response is exactly the string Error-colon-space followed by the error
message, appends it in place, and still processes every record after it:
the outcome list for l1 ++ record :: l2 is the outcome list for l1, then
the error row, then the outcome list for l2. -/
theorem C5_failure_isolation (sendToService : String → Except String String)
    (filterField : String) (fields : List String)
    (fieldMetadata : String → Option FieldMeta) (l1 l2 : List SRecord)
    (record : SRecord) (msg : String)
    (hne : jsTrim (combineFieldsWithLabels record fields fieldMetadata) ≠ "")
    (hfail : sendToService (combineFieldsWithLabels record fields fieldMetadata) =
      Except.error msg) :
    processRecords sendToService filterField fields fieldMetadata (l1 ++ record :: l2) =
      processRecords sendToService filterField fields fieldMetadata l1 ++
        ⟨record.id, (record.attrs filterField).getD "",
          combineFieldsWithLabels record fields fieldMetadata, "Error: " ++ msg⟩ ::
        processRecords sendToService filterField fields fieldMetadata l2 := by
  have hrec : processRecord sendToService filterField fields fieldMetadata record =
      some ⟨record.id, (record.attrs filterField).getD "",
        combineFieldsWithLabels record fields fieldMetadata, "Error: " ++ msg⟩ := by
    simp only [processRecord]
    rw [if_pos hne, hfail]
  unfold processRecords
  rw [List.filterMap_append, List.filterMap_cons, hrec]

/-- C5 witness: of three one-field records, the completion stub fails on
the second; its row carries the error sentinel and the third record is
still processed. -/
theorem C5_failure_isolation_w :
    processRecords svcEcho "F" ["Q"] metaNone
        ([recQ "001" "one"] ++ recQ "002" "two" :: [recQ "003" "three"]) =
      processRecords svcEcho "F" ["Q"] metaNone [recQ "001" "one"] ++
        ⟨(recQ "002" "two").id, ((recQ "002" "two").attrs "F").getD "",
          combineFieldsWithLabels (recQ "002" "two") ["Q"] metaNone,
          "Error: " ++ "boom"⟩ ::
        processRecords svcEcho "F" ["Q"] metaNone [recQ "003" "three"] :=
  C5_failure_isolation svcEcho "F" ["Q"] metaNone [recQ "001" "one"]
    [recQ "003" "three"] (recQ "002" "two") "boom" (by decide) (by rfl)

/-- C7 counterexample: an artifact whose stream yields one valid data row
and then errors makes `getProcessedRecordIds` resolve with the non-empty
set of the already-parsed id (and the warning), not with an empty set as
claimed for an artifact that cannot be parsed. -/
theorem C7_counterexample :
    getProcessedRecordIds
        (some [CsvEvent.data [("Salesforce Record ID", "A")], CsvEvent.err "bad"]) =
      ⟨{"A"}, true⟩ ∧
      ({"A"} : Finset String) ≠ (∅ : Finset String) := by
  constructor
  · decide
  · decide

/-- C7 amended: `getProcessedRecordIds` returns an empty set (without
warning) when the output artifact does not exist; when the artifact's
stream errors it logs the non-fatal warning and resolves — its type has
no failure outcome, so it never raises — with the ids accumulated from
the data rows parsed before the error, which is the empty set exactly
when the error precedes any data row (an artifact that cannot be parsed
at all). -/
theorem C7_resume_error_contract (rows : List (List (String × String)))
    (msg : String) (rest : List CsvEvent) :
    getProcessedRecordIds none = ⟨∅, false⟩ ∧
      getProcessedRecordIds
          (some (rows.map CsvEvent.data ++ CsvEvent.err msg :: rest)) =
        ⟨(rows.filterMap rowResumeValue).foldl (fun t v => insert v t) ∅, true⟩ :=
  ⟨rfl, resumeScan_data_err rows ∅ msg rest⟩

/-- C8: if every requested field of a record is absent, empty, or blank
after trimming (the source guard `fieldHasText` fails on all of them),
`combineFieldsWithLabels` returns the empty string and the loop body
produces no outcome — `processRecord` returns none for any completion
service, so the service is never invoked and no row is written, a silent
skip; conversely, if at least one requested field passes the guard, the
combined text is non-empty and the record is processed (an outcome is
produced). -/
theorem C8_empty_field_skip (record : SRecord) (fields : List String)
    (fieldMetadata : String → Option FieldMeta)
    (sendToService : String → Except String String) (filterField : String) :
    ((∀ f ∈ fields, fieldHasText record f = false) →
        combineFieldsWithLabels record fields fieldMetadata = "" ∧
          processRecord sendToService filterField fields fieldMetadata record = none) ∧
      ((∃ f ∈ fields, fieldHasText record f = true) →
        combineFieldsWithLabels record fields fieldMetadata ≠ "" ∧
          (processRecord sendToService filterField fields fieldMetadata record).isSome =
            true) := by
  constructor
  · intro h
    have hcomb := combineFieldsWithLabels_eq_empty record fields fieldMetadata h
    refine ⟨hcomb, ?_⟩
    simp only [processRecord, hcomb, jsTrim_empty]
    simp
  · rintro ⟨f, hf, hft⟩
    have htrim := combineFieldsWithLabels_trim_ne record fields fieldMetadata f hf hft
    refine ⟨?_, ?_⟩
    · intro hc
      rw [hc] at htrim
      exact htrim jsTrim_empty
    · simp only [processRecord]
      rw [if_pos htrim]
      rfl

/-- C8 witness: a record whose only field is blank is skipped (empty
combination, no outcome); a record with one non-blank field is processed. -/
theorem C8_empty_field_skip_w :
    (combineFieldsWithLabels (recQ "004" "   ") ["Q"] metaNone = "" ∧
        processRecord svcEcho "F" ["Q"] metaNone (recQ "004" "   ") = none) ∧
      (combineFieldsWithLabels (recQ "005" "hello") ["Q"] metaNone ≠ "" ∧
        (processRecord svcEcho "F" ["Q"] metaNone (recQ "005" "hello")).isSome = true) :=
  ⟨(C8_empty_field_skip (recQ "004" "   ") ["Q"] metaNone svcEcho "F").1 (by decide),
    (C8_empty_field_skip (recQ "005" "hello") ["Q"] metaNone svcEcho "F").2 (by decide)⟩

/-- C9 counterexample: an input artifact with no header row (its stream
ends without a headers event) does not make `readCsvFile` fail: it
resolves with a null filter field and no values. -/
theorem C9_counterexample : readCsvFile [] = Except.ok ⟨none, []⟩ := rfl

/-- C9 amended: `readCsvFile` does not fail on an artifact with no header
row — it resolves with a null filter field and an empty value list;
otherwise it returns the header's first column name, BOM-stripped and
trimmed, as the filter field, and every subsequent row's non-empty
trimmed first-column value (BOM-stripped and trimmed) as a filter value,
silently skipping rows whose first column is empty or whitespace-only
(`rowFirstValue`). -/
theorem C9_identifier_source (names : List String)
    (rows : List (List (String × String))) :
    readCsvFile [] = Except.ok ⟨none, []⟩ ∧
      readCsvFile (CsvEvent.headers names :: rows.map CsvEvent.data) =
        Except.ok ⟨some (jsTrim (stripBOM (names.headD ""))),
          rows.filterMap rowFirstValue⟩ := by
  refine ⟨rfl, ?_⟩
  unfold readCsvFile
  simp only [readCsvScan]
  simpa using readCsvScan_data (some (jsTrim (stripBOM (names.headD "")))) rows []
